import Mathlib

/-!
Verification of the credential-handling core of the `school_api` repository:
the PHC hash codec, the Argon2id password hash engine, the JWT session-token
validator, and the `Protect` authentication gate.

Modelling conventions:
* Byte slices are `List Nat` with every element `< 256`.
* Go strings are `List Char` where their character structure matters.
* The Argon2id key-derivation function (`golang.org/x/crypto/argon2.IDKey`)
  is a cryptographic primitive external to the repository; engine operations
  are parameterised over it (argument order matches Go:
  password, salt, time, memory, threads, keyLen).
* Random salt generation (`generateSalt`) is modelled by passing the salt in
  as an argument.
* Fallible Go functions returning `(T, error)` become `Except String T`.
-/

deriving instance DecidableEq for Except

namespace SchoolApi

/-! ## Strings as character lists: Go `strings` helpers -/

/-- Go `strings.Split(s, sep)` for a one-character separator:
splits around every occurrence of `sep`; the empty string yields `[[]]`. -/
def splitOnChar (sep : Char) : List Char → List (List Char)
  | [] => [[]]
  | c :: rest =>
    if c = sep then [] :: splitOnChar sep rest
    else
      match splitOnChar sep rest with
      | [] => [[c]]
      | s :: ss => (c :: s) :: ss

/-- Go `strings.TrimPrefix(s, pre)`: drops `pre` when it is a prefix,
otherwise returns `s` unchanged. -/
def trimPre (pre s : List Char) : List Char :=
  if pre.isPrefixOf s then s.drop pre.length else s

/-- Go `strconv.ParseUint(s, 10, 32)`: succeeds exactly on a non-empty
all-decimal-digit string whose value fits in 32 bits. -/
def parseUint32 (s : List Char) : Option Nat :=
  if s.isEmpty then none
  else if s.all Char.isDigit then
    let v := s.foldl (fun acc c => acc * 10 + (c.toNat - 48)) 0
    if v < 2 ^ 32 then some v else none
  else none

/-! ## Base64 (Go `encoding/base64` `RawStdEncoding`: unpadded, lenient) -/

/-- The standard base64 alphabet. -/
def b64Alphabet : List Char :=
  "ABCDEFGHIJKLMNOPQRSTUVWXYZabcdefghijklmnopqrstuvwxyz0123456789+/".toList

/-- The character encoding a 6-bit group. -/
def b64Char (n : Nat) : Char := b64Alphabet.getD n '?'

def b64IndexAux : List Char → Nat → Char → Option Nat
  | [], _, _ => none
  | a :: rest, i, c => if a = c then some i else b64IndexAux rest (i + 1) c

/-- The 6-bit value of an alphabet character, `none` for a character
outside the alphabet. -/
def b64Index (c : Char) : Option Nat := b64IndexAux b64Alphabet 0 c

/-- `base64.RawStdEncoding.EncodeToString`: 3 bytes become 4 characters,
a 1- or 2-byte tail becomes 2 or 3 characters, no padding. -/
def encodeB64 : List Nat → List Char
  | [] => []
  | [a] => [b64Char (a / 4), b64Char (a % 4 * 16)]
  | [a, b] => [b64Char (a / 4), b64Char (a % 4 * 16 + b / 16), b64Char (b % 16 * 4)]
  | a :: b :: c :: rest =>
    b64Char (a / 4) :: b64Char (a % 4 * 16 + b / 16) ::
      b64Char (b % 16 * 4 + c / 64) :: b64Char (c % 64) :: encodeB64 rest

/-- `base64.RawStdEncoding.DecodeString`: fails on a character outside the
alphabet or on a length `≡ 1 (mod 4)` tail; like Go's non-strict decoder it
ignores non-zero trailing bits in a partial final group. -/
def decodeB64 : List Char → Option (List Nat)
  | [] => some []
  | [_] => none
  | [c1, c2] => do
    let n1 ← b64Index c1
    let n2 ← b64Index c2
    pure [n1 * 4 + n2 / 16]
  | [c1, c2, c3] => do
    let n1 ← b64Index c1
    let n2 ← b64Index c2
    let n3 ← b64Index c3
    pure [n1 * 4 + n2 / 16, n2 % 16 * 16 + n3 / 4]
  | c1 :: c2 :: c3 :: c4 :: rest => do
    let n1 ← b64Index c1
    let n2 ← b64Index c2
    let n3 ← b64Index c3
    let n4 ← b64Index c4
    let tail ← decodeB64 rest
    pure ([n1 * 4 + n2 / 16, n2 % 16 * 16 + n3 / 4, n3 % 4 * 64 + n4] ++ tail)

/-! ### Base64 lemmas -/

theorem b64_round : ∀ n < 64, b64Index (b64Char n) = some n := by decide

theorem b64Char_ne_dollar : ∀ n < 64, b64Char n ≠ '$' := by decide

theorem decodeB64_encodeB64 (bs : List Nat) (h : ∀ x ∈ bs, x < 256) :
    decodeB64 (encodeB64 bs) = some bs := by
  induction bs using encodeB64.induct with
  | case1 => rfl
  | case2 a =>
    have ha : a < 256 := h a (by simp)
    have h1 := b64_round (a / 4) (by omega)
    have h2 := b64_round (a % 4 * 16) (by omega)
    simp only [encodeB64, decodeB64, h1, h2, Option.bind_eq_bind, Option.some_bind,
      Option.pure_def, Option.some.injEq, List.cons.injEq, and_true]
    omega
  | case3 a b =>
    have ha : a < 256 := h a (by simp)
    have hb : b < 256 := h b (by simp)
    have h1 := b64_round (a / 4) (by omega)
    have h2 := b64_round (a % 4 * 16 + b / 16) (by omega)
    have h3 := b64_round (b % 16 * 4) (by omega)
    simp only [encodeB64, decodeB64, h1, h2, h3, Option.bind_eq_bind, Option.some_bind,
      Option.pure_def, Option.some.injEq, List.cons.injEq, and_true]
    refine ⟨by omega, by omega⟩
  | case4 a b c rest ih =>
    have ha : a < 256 := h a (by simp)
    have hb : b < 256 := h b (by simp)
    have hc : c < 256 := h c (by simp)
    have h1 := b64_round (a / 4) (by omega)
    have h2 := b64_round (a % 4 * 16 + b / 16) (by omega)
    have h3 := b64_round (b % 16 * 4 + c / 64) (by omega)
    have h4 := b64_round (c % 64) (by omega)
    have htail : decodeB64 (encodeB64 rest) = some rest := by
      refine ih ?_
      intro x hx
      exact h x (by simp [hx])
    simp only [encodeB64, decodeB64, h1, h2, h3, h4, htail, Option.bind_eq_bind,
      Option.some_bind, Option.pure_def, Option.some.injEq, List.cons_append,
      List.nil_append, List.cons.injEq, and_true]
    refine ⟨by omega, by omega, by omega⟩

theorem dollar_not_mem_encodeB64 (bs : List Nat) (h : ∀ x ∈ bs, x < 256) :
    '$' ∉ encodeB64 bs := by
  induction bs using encodeB64.induct with
  | case1 => simp [encodeB64]
  | case2 a =>
    have ha : a < 256 := h a (by simp)
    simp only [encodeB64, List.mem_cons, List.not_mem_nil, or_false]
    push_neg
    exact ⟨(b64Char_ne_dollar _ (by omega)).symm, (b64Char_ne_dollar _ (by omega)).symm⟩
  | case3 a b =>
    have ha : a < 256 := h a (by simp)
    have hb : b < 256 := h b (by simp)
    simp only [encodeB64, List.mem_cons, List.not_mem_nil, or_false]
    push_neg
    exact ⟨(b64Char_ne_dollar _ (by omega)).symm, (b64Char_ne_dollar _ (by omega)).symm,
      (b64Char_ne_dollar _ (by omega)).symm⟩
  | case4 a b c rest ih =>
    have ha : a < 256 := h a (by simp)
    have hb : b < 256 := h b (by simp)
    have hc : c < 256 := h c (by simp)
    have htail : '$' ∉ encodeB64 rest := by
      refine ih ?_
      intro x hx
      exact h x (by simp [hx])
    simp only [encodeB64, List.mem_cons]
    push_neg
    exact ⟨(b64Char_ne_dollar _ (by omega)).symm, (b64Char_ne_dollar _ (by omega)).symm,
      (b64Char_ne_dollar _ (by omega)).symm, (b64Char_ne_dollar _ (by omega)).symm, htail⟩

/-! ### Splitting lemmas -/

theorem splitOnChar_ne_nil (sep : Char) (l : List Char) : splitOnChar sep l ≠ [] := by
  induction l with
  | nil => simp [splitOnChar]
  | cons c rest ih =>
    simp only [splitOnChar]
    split
    · simp
    · match hs : splitOnChar sep rest with
      | [] => simp
      | s :: ss => simp

theorem splitOnChar_sep_cons (sep : Char) (rest : List Char) :
    splitOnChar sep (sep :: rest) = [] :: splitOnChar sep rest := by
  simp [splitOnChar]

theorem splitOnChar_no_sep (sep : Char) (l : List Char) (h : sep ∉ l) :
    splitOnChar sep l = [l] := by
  induction l with
  | nil => rfl
  | cons c rest ih =>
    have hc : c ≠ sep := fun hcs => h (by simp [hcs])
    have hrest : splitOnChar sep rest = [rest] := ih (fun hm => h (by simp [hm]))
    simp [splitOnChar, hc, hrest]

theorem splitOnChar_append_sep (sep : Char) (l rest : List Char) (h : sep ∉ l) :
    splitOnChar sep (l ++ sep :: rest) = l :: splitOnChar sep rest := by
  induction l with
  | nil => simp [splitOnChar]
  | cons c l' ih =>
    have hc : c ≠ sep := fun hcs => h (by simp [hcs])
    have hl' : splitOnChar sep (l' ++ sep :: rest) = l' :: splitOnChar sep rest :=
      ih (fun hm => h (by simp [hm]))
    simp [splitOnChar, hc, hl']

/-! ## PHC codec (`password.go`) -/

/-- Default Argon2 memory cost in KiB (`defaultMemory`). -/
def defaultMemory : Nat := 64 * 1024

/-- Default Argon2 iteration count (`defaultIterations`). -/
def defaultIterations : Nat := 3

/-- Default Argon2 thread count (`defaultParallelism`). -/
def defaultParallelism : Nat := 2

/-- Configured salt length in bytes (`defaultSaltLength`). -/
def defaultSaltLength : Nat := 16

/-- Configured derived-key length in bytes (`defaultKeyLength`). -/
def defaultKeyLength : Nat := 32

/-- The single supported algorithm identifier (`algorithmName`). -/
def algorithmName : List Char := "argon2id".toList

/-- `argon2.Version` (0x13). -/
def argon2Version : Nat := 19

/-- Decimal rendering of a natural number, as Go `%d`. -/
def natChars (n : Nat) : List Char := (Nat.repr n).toList

/-- `Argon2Hash`: a parsed PHC record (`Parallelism` is a Go `uint8`). -/
structure Argon2Hash where
  algorithm : List Char
  version : Nat
  memory : Nat
  iterations : Nat
  parallelism : Nat
  salt : List Nat
  hash : List Nat
deriving DecidableEq, Repr

/-- The `v=<version>` segment written by `encodePHCString`. -/
def versionSeg : List Char := "v=".toList ++ natChars argon2Version

/-- The `m=…,t=…,p=…` segment written by `encodePHCString`. -/
def paramsSeg : List Char :=
  "m=".toList ++ natChars defaultMemory ++ ",t=".toList ++ natChars defaultIterations ++
    ",p=".toList ++ natChars defaultParallelism

/-- `encodePHCString(salt, hash)`: the `fmt.Sprintf("$%s$v=%d$m=%d,t=%d,p=%d$%s$%s", …)`
string, with the current default parameters baked in. -/
def encodePHCString (salt hash : List Nat) : List Char :=
  '$' :: (algorithmName ++ '$' :: (versionSeg ++ '$' :: (paramsSeg ++ '$' ::
    (encodeB64 salt ++ '$' :: encodeB64 hash))))

/-- `parseAlgorithm`: the identifier must equal `argon2id`. -/
def parseAlgorithm (seg : List Char) : Except String (List Char) :=
  if seg = algorithmName then .ok seg else .error "unsupported algorithm"

/-- `parseVersion`: trim a `v=` marker, parse as uint32, require `argon2.Version`. -/
def parseVersion (seg : List Char) : Except String Nat :=
  match parseUint32 (trimPre "v=".toList seg) with
  | none => .error "invalid version format"
  | some v => if v = argon2Version then .ok v else .error "unsupported argon2 version"

/-- One `k=v` pair of the parameter segment: `strings.Split(pair, "=")` must give
exactly two pieces and the value must parse as uint32. -/
def parsePair (pair : List Char) : Except String (List Char × Nat) :=
  match splitOnChar '=' pair with
  | [k, v] =>
    match parseUint32 v with
    | some n => .ok (k, n)
    | none => .error "invalid parameter value"
  | _ => .error "malformed parameter"

/-- The loop of `parseParameters` that fills the `params` map, failing at the
first malformed pair. -/
def collectParams : List (List Char) → Except String (List (List Char × Nat))
  | [] => .ok []
  | pair :: rest =>
    match parsePair pair with
    | .error e => .error e
    | .ok kv =>
      match collectParams rest with
      | .error e => .error e
      | .ok l => .ok (kv :: l)

/-- Go map lookup where later insertions overwrite earlier ones:
the last binding of the key wins. -/
def mapGet (l : List (List Char × Nat)) (k : List Char) : Option Nat :=
  l.reverse.lookup k

/-- `parseParameters`: split on `,`, parse every pair, require keys `m`, `t`, `p`;
the `p` value is narrowed to a Go `uint8`. -/
def parseParameters (seg : List Char) : Except String (Nat × Nat × Nat) :=
  match collectParams (splitOnChar ',' seg) with
  | .error e => .error e
  | .ok params =>
    match mapGet params "m".toList, mapGet params "t".toList, mapGet params "p".toList with
    | some m, some t, some p => .ok (m, t, p % 256)
    | _, _, _ => .error "missing required parameter"

/-- `decodeSaltAndHash`: base64-decode both segments; note that no length
check is performed on either. -/
def decodeSaltAndHash (saltSeg hashSeg : List Char) : Except String (List Nat × List Nat) :=
  match decodeB64 saltSeg with
  | none => .error "failed to decode salt"
  | some salt =>
    match decodeB64 hashSeg with
    | none => .error "failed to decode hash"
    | some h => .ok (salt, h)

/-- `parsePHCString`: split on `$` into exactly 6 segments, then validate
algorithm, version, parameters, and base64 salt/hash.  Any failure yields an
error and no record. -/
def parsePHCString (enc : List Char) : Except String Argon2Hash :=
  match splitOnChar '$' enc with
  | [_, algSeg, verSeg, parSeg, saltSeg, hashSeg] =>
    match parseAlgorithm algSeg with
    | .error e => .error e
    | .ok alg =>
      match parseVersion verSeg with
      | .error e => .error e
      | .ok ver =>
        match parseParameters parSeg with
        | .error e => .error e
        | .ok (m, t, p) =>
          match decodeSaltAndHash saltSeg hashSeg with
          | .error e => .error e
          | .ok (salt, hashBytes) => .ok ⟨alg, ver, m, t, p, salt, hashBytes⟩
  | _ => .error "invalid PHC format: expected 6 parts"

/-- Is an `Except` result an error? -/
def isError {ε α : Type} : Except ε α → Bool
  | .error _ => true
  | .ok _ => false

/-! ### Codec round-trip -/

theorem splitOnChar_encodePHC (salt hash : List Nat)
    (hs : ∀ x ∈ salt, x < 256) (hh : ∀ x ∈ hash, x < 256) :
    splitOnChar '$' (encodePHCString salt hash) =
      [[], algorithmName, versionSeg, paramsSeg, encodeB64 salt, encodeB64 hash] := by
  have h1 : '$' ∉ algorithmName := by decide
  have h2 : '$' ∉ versionSeg := by decide
  have h3 : '$' ∉ paramsSeg := by decide
  have h4 := dollar_not_mem_encodeB64 salt hs
  have h5 := dollar_not_mem_encodeB64 hash hh
  rw [encodePHCString, splitOnChar_sep_cons, splitOnChar_append_sep _ _ _ h1,
    splitOnChar_append_sep _ _ _ h2, splitOnChar_append_sep _ _ _ h3,
    splitOnChar_append_sep _ _ _ h4, splitOnChar_no_sep _ _ h5]

/-- Decoding an encoded PHC string recovers the salt and hash bytes exactly,
together with the default parameters that `encodePHCString` bakes in. -/
theorem parsePHCString_encodePHCString (salt hash : List Nat)
    (hs : ∀ x ∈ salt, x < 256) (hh : ∀ x ∈ hash, x < 256) :
    parsePHCString (encodePHCString salt hash) =
      .ok ⟨algorithmName, argon2Version, defaultMemory, defaultIterations,
        defaultParallelism, salt, hash⟩ := by
  have e1 : parseAlgorithm algorithmName = .ok algorithmName := rfl
  have e2 : parseVersion versionSeg = .ok argon2Version := by decide
  have e3 : parseParameters paramsSeg =
      .ok (defaultMemory, defaultIterations, defaultParallelism) := by decide
  have e4 : decodeSaltAndHash (encodeB64 salt) (encodeB64 hash) = .ok (salt, hash) := by
    simp only [decodeSaltAndHash, decodeB64_encodeB64 salt hs, decodeB64_encodeB64 hash hh]
  simp only [parsePHCString, splitOnChar_encodePHC salt hash hs hh, e1, e2, e3, e4]

/-! ## Password Hash Engine (`password.go`) -/

/-- The type of `argon2.IDKey`, external to the repository: arguments are
password bytes, salt bytes, time cost, memory cost, thread count, key length. -/
abbrev Kdf := List Nat → List Nat → Nat → Nat → Nat → Nat → List Nat

/-- `validatePasswordInput`: rejects the empty password and any password of
fewer than 4 bytes. -/
def validatePasswordInput (password : List Nat) : Except String Unit :=
  if password.length = 0 then .error "password cannot be empty"
  else if password.length < 4 then .error "password must be at least 4 characters"
  else .ok ()

/-- `subtle.ConstantTimeCompare`: 1 when the two byte slices have equal length
and contents, 0 otherwise.  (The constant-time execution property itself is a
timing property outside the embedding; the result value is total.) -/
def constantTimeCompare (x y : List Nat) : Nat := if x = y then 1 else 0

/-- `HashPassword`: validate the input, then derive a key with the current
default parameters and encode it.  The random salt produced by `generateSalt`
is passed in as the `salt` argument. -/
def HashPassword (idKey : Kdf) (salt : List Nat) (password : List Nat) :
    Except String (List Char) :=
  match validatePasswordInput password with
  | .error e => .error e
  | .ok _ =>
    .ok (encodePHCString salt
      (idKey password salt defaultIterations defaultMemory defaultParallelism
        defaultKeyLength))

/-- `CheckPassword`: validate the input, parse the stored hash, re-derive with
the *stored* parameters (key length taken from the stored hash), and compare in
constant time. -/
def CheckPassword (idKey : Kdf) (password : List Nat) (encodedHash : List Char) :
    Except String Bool :=
  match validatePasswordInput password with
  | .error e => .error e
  | .ok _ =>
    match parsePHCString encodedHash with
    | .error e => .error ("invalid hash format: " ++ e)
    | .ok stored =>
      let derived := idKey password stored.salt stored.iterations stored.memory
        stored.parallelism stored.hash.length
      .ok (decide (constantTimeCompare derived stored.hash = 1))

/-- `needsUpgrade`: true when any stored cost parameter is below the current
default. -/
def needsUpgrade (h : Argon2Hash) : Bool :=
  if h.memory < defaultMemory then true
  else if h.iterations < defaultIterations then true
  else if h.parallelism < defaultParallelism then true
  else false

/-- `UpgradeHashIfNeeded`: verify first, then re-hash with current parameters
exactly when `needsUpgrade` holds; the fresh salt for the re-hash is the `salt`
argument. -/
def UpgradeHashIfNeeded (idKey : Kdf) (salt : List Nat) (password : List Nat)
    (encodedHash : List Char) : Except String (List Char × Bool) :=
  match CheckPassword idKey password encodedHash with
  | .error e => .error ("password verification failed: " ++ e)
  | .ok false => .error "password does not match stored hash"
  | .ok true =>
    match parsePHCString encodedHash with
    | .error e => .error ("failed to parse stored hash: " ++ e)
    | .ok stored =>
      if needsUpgrade stored then
        match HashPassword idKey salt password with
        | .error e => .error e
        | .ok newHash => .ok (newHash, true)
      else .ok (encodedHash, false)

/-! ## Session tokens (`jwt.go` / `unnamed/part_008`) -/

/-- JWT signing methods relevant to the validator.  `SigningMethodHMAC` in the
`golang-jwt/v5` library covers `HS256`, `HS384` and `HS512`; `noAlg` is the
`none` algorithm; the remaining constructors stand for non-HMAC families. -/
inductive SigningMethod where
  | HS256
  | HS384
  | HS512
  | RS256
  | ES256
  | noAlg
deriving DecidableEq, Repr

/-- The keyfunc's type assertion `token.Method.(*jwt.SigningMethodHMAC)`:
true exactly for the HMAC family. -/
def isHMACMethod : SigningMethod → Bool
  | .HS256 => true
  | .HS384 => true
  | .HS512 => true
  | _ => false

/-- `CustomClaims`: `user_id` and `role` plus the registered claims the code
touches (timestamps at Unix-second granularity). -/
structure CustomClaims where
  userID : String
  role : String
  issuer : String
  subject : String
  issuedAt : Option Int
  expiresAt : Option Int
  notBefore : Option Int
deriving DecidableEq, Repr

/-- A parsed token as the `jwt/v5` library hands it to the keyfunc and
verifier.  `signatureValid` abstracts the cryptographic check "the signature
verifies against `jwtKey` under the declared method"; everything else the
validator does is explicit below. -/
structure JwtToken where
  method : SigningMethod
  claims : CustomClaims
  signatureValid : Bool
deriving DecidableEq, Repr

/-- `ValidateJWT`: the keyfunc rejects any non-HMAC method (translated from the
source); then the library verifies the signature and the registered claims —
with the default parser options `exp` and `nbf` are checked when present
(valid while `now < exp` and once `nbf ≤ now`), and `iat` is **not** checked.
All failures collapse to the single error the source returns. -/
def ValidateJWT (now : Int) (tok : JwtToken) : Except String CustomClaims :=
  if ¬ isHMACMethod tok.method then .error "invalid or expired token"
  else if ¬ tok.signatureValid then .error "invalid or expired token"
  else if (match tok.claims.expiresAt with
           | some e => decide (e ≤ now)
           | none => false) then .error "invalid or expired token"
  else if (match tok.claims.notBefore with
           | some n => decide (now < n)
           | none => false) then .error "invalid or expired token"
  else .ok tok.claims

/-! ## Authentication Gate (`middlewares/protect.go`, `models` teacher) -/

/-- `time.Time{}.Unix()`: the Unix timestamp of Go's zero time
(January 1, year 1 UTC), so `IsZero` at second granularity is equality with
this constant. -/
def zeroTimeUnix : Int := -62135596800

/-- The fields of `models.Teacher` the authentication path reads.
`passwordChangedAt` is the `*time.Time` pointer, carried as the Unix-second
value when non-nil. -/
structure Teacher where
  id : Int
  passwordChangedAt : Option Int
  isActive : Bool
deriving DecidableEq, Repr

/-- `Teacher.ChangedPasswordAfter`: false when the pointer is nil or the time
is the zero time; otherwise true exactly when the change is strictly after the
token's timestamp. -/
def ChangedPasswordAfter (t : Teacher) (jwtTimestamp : Int) : Bool :=
  match t.passwordChangedAt with
  | none => false
  | some changed =>
    if changed = zeroTimeUnix then false
    else decide (changed > jwtTimestamp)

/-- Outcome of the `Protect` middleware: either an error response with an HTTP
status code (`utils.WriteError`) or success, attaching the resolved user to
the request context and calling the next handler. -/
inductive GateOutcome where
  | reject (status : Nat) (msg : String)
  | authenticated (user : Teacher)
deriving DecidableEq, Repr

/-- The message written on a password-change rejection. -/
def pwChangedMsg : String := "User recently changed password! Please log in again."

/-- `AuthMiddleware.Protect`: token extraction (cookie first, then bearer
header; an absent or empty token is `none` here), `ValidateJWT`, account
lookup (`strconv.Atoi` plus `Repo.GetByID`, abstracted as a map from the
claims' user id), the password-change check guarded on `IssuedAt != nil`, and
success.  The source contains no `IsActive` check on this path. -/
def Protect (lookup : String → Option Teacher) (now : Int)
    (cookieToken : Option JwtToken) (bearerToken : Option JwtToken) : GateOutcome :=
  let tok? := match cookieToken with
    | some t => some t
    | none => bearerToken
  match tok? with
  | none => .reject 401 "You are not logged in!"
  | some tok =>
    match ValidateJWT now tok with
    | .error _ => .reject 401 "Invalid or expired token"
    | .ok claims =>
      match lookup claims.userID with
      | none => .reject 401 "The user belonging to this token no longer exists."
      | some currentUser =>
        match claims.issuedAt with
        | some iat =>
          if ChangedPasswordAfter currentUser iat then .reject 401 pwChangedMsg
          else .authenticated currentUser
        | none => .authenticated currentUser

/-! ## Engine lemmas -/

theorem constantTimeCompare_eq_one (x y : List Nat) :
    constantTimeCompare x y = 1 ↔ x = y := by
  unfold constantTimeCompare
  split <;> simp_all

theorem validatePasswordInput_ok (password : List Nat) (h : 4 ≤ password.length) :
    validatePasswordInput password = .ok () := by
  unfold validatePasswordInput
  rw [if_neg (by omega), if_neg (by omega)]

/-- Verifying any (valid-length) candidate against a freshly produced hash
reduces to comparing the two derived keys: the stored parameters decoded from
the record are exactly the defaults the hash was produced with. -/
theorem checkPassword_encode (idKey : Kdf)
    (hlen : ∀ pw s t m p k, (idKey pw s t m p k).length = k)
    (hbyte : ∀ pw s t m p k, ∀ x ∈ idKey pw s t m p k, x < 256)
    (salt : List Nat) (hsalt : ∀ x ∈ salt, x < 256)
    (password other : List Nat) (hvalid : validatePasswordInput other = .ok ()) :
    CheckPassword idKey other
        (encodePHCString salt
          (idKey password salt defaultIterations defaultMemory defaultParallelism
            defaultKeyLength)) =
      .ok (decide
        (idKey other salt defaultIterations defaultMemory defaultParallelism
            defaultKeyLength =
          idKey password salt defaultIterations defaultMemory defaultParallelism
            defaultKeyLength)) := by
  have hparse := parsePHCString_encodePHCString salt
    (idKey password salt defaultIterations defaultMemory defaultParallelism
      defaultKeyLength) hsalt (hbyte _ _ _ _ _ _)
  have hl : (idKey password salt defaultIterations defaultMemory defaultParallelism
      defaultKeyLength).length = defaultKeyLength := hlen _ _ _ _ _ _
  simp only [CheckPassword, hvalid, hparse, hl]
  congr 1
  rw [decide_eq_decide]
  exact constantTimeCompare_eq_one _ _

/-- C1: for every password accepted by the input validation, `verify(p, hash(p))`
is true, and verifying a different password (p with a byte appended) whose
derived key differs from p's is false.  The KDF is abstract; its output-length
law and byte-validity are hypotheses, and the distinctness of the two derived
keys is the collision-freeness hypothesis the cryptographic claim rests on. -/
theorem hash_verify_roundtrip (idKey : Kdf)
    (hlen : ∀ pw s t m p k, (idKey pw s t m p k).length = k)
    (hbyte : ∀ pw s t m p k, ∀ x ∈ idKey pw s t m p k, x < 256)
    (salt : List Nat) (hsalt : ∀ x ∈ salt, x < 256)
    (password : List Nat) (hpw : 4 ≤ password.length) (c : Nat)
    (hdiff : idKey (password ++ [c]) salt defaultIterations defaultMemory
        defaultParallelism defaultKeyLength ≠
      idKey password salt defaultIterations defaultMemory defaultParallelism
        defaultKeyLength)
    (enc : List Char) (henc : HashPassword idKey salt password = .ok enc) :
    CheckPassword idKey password enc = .ok true ∧
      CheckPassword idKey (password ++ [c]) enc = .ok false := by
  have hval : validatePasswordInput password = .ok () := validatePasswordInput_ok _ hpw
  have hval2 : validatePasswordInput (password ++ [c]) = .ok () :=
    validatePasswordInput_ok _ (by simp; omega)
  have henc' : enc = encodePHCString salt
      (idKey password salt defaultIterations defaultMemory defaultParallelism
        defaultKeyLength) := by
    simp only [HashPassword, hval] at henc
    exact (Except.ok.inj henc).symm
  subst henc'
  refine ⟨?_, ?_⟩
  · rw [checkPassword_encode idKey hlen hbyte salt hsalt password password hval]
    simp
  · rw [checkPassword_encode idKey hlen hbyte salt hsalt password (password ++ [c]) hval2]
    simp [hdiff]

/-- A deterministic stand-in KDF used to instantiate the abstract engine
theorems on concrete inputs. -/
def toyKdf : Kdf := fun pw s _ _ _ k =>
  (List.range k).map (fun i => (pw.foldl (· + ·) 0 + s.foldl (· + ·) 0 + i) % 256)

theorem toyKdf_len : ∀ pw s t m p k, (toyKdf pw s t m p k).length = k := by
  intro pw s t m p k
  simp [toyKdf]

theorem toyKdf_byte : ∀ pw s t m p k, ∀ x ∈ toyKdf pw s t m p k, x < 256 := by
  intro pw s t m p k x hx
  simp only [toyKdf, List.mem_map, List.mem_range] at hx
  obtain ⟨i, _, rfl⟩ := hx
  exact Nat.mod_lt _ (by norm_num)

/-- Witness salt for the engine theorems. -/
def wSalt : List Nat := List.replicate 16 1

/-- Witness password bytes for the engine theorems. -/
def wPassword : List Nat := [104, 117, 110, 116]

/-- C1 witness: the round-trip theorem evaluated at a concrete KDF, salt,
password, and appended byte `120` (`'x'`). -/
theorem hash_verify_roundtrip_witness :
    CheckPassword toyKdf wPassword
        (encodePHCString wSalt
          (toyKdf wPassword wSalt defaultIterations defaultMemory defaultParallelism
            defaultKeyLength)) = .ok true ∧
      CheckPassword toyKdf (wPassword ++ [120])
        (encodePHCString wSalt
          (toyKdf wPassword wSalt defaultIterations defaultMemory defaultParallelism
            defaultKeyLength)) = .ok false :=
  hash_verify_roundtrip toyKdf toyKdf_len toyKdf_byte wSalt (by decide) wPassword
    (by decide) 120 (by decide) _ rfl

/-- C10: a password that is empty or shorter than 4 bytes makes `CheckPassword`
return an error for every stored hash string — never the boolean false. -/
theorem checkPassword_short_input (idKey : Kdf) (password : List Nat)
    (h : password.length < 4) (enc : List Char) :
    isError (CheckPassword idKey password enc) = true := by
  by_cases h0 : password.length = 0
  · have hval : validatePasswordInput password = .error "password cannot be empty" := by
      unfold validatePasswordInput
      rw [if_pos h0]
    simp [CheckPassword, hval, isError]
  · have hval : validatePasswordInput password =
        .error "password must be at least 4 characters" := by
      unfold validatePasswordInput
      rw [if_neg h0, if_pos h]
    simp [CheckPassword, hval, isError]

/-- C10 witness: a 1-byte password is rejected even against a well-formed
stored hash. -/
theorem checkPassword_short_input_witness :
    isError (CheckPassword toyKdf [65] "$argon2id$v=19$m=65536,t=3,p=2$QQ$QQ".toList) =
      true :=
  checkPassword_short_input toyKdf [65] (by decide) _

/-! ## Authentication Gate lemmas -/

theorem changedPasswordAfter_iff (user : Teacher) (iat : Int) :
    ChangedPasswordAfter user iat = true ↔
      ∃ t, user.passwordChangedAt = some t ∧ t ≠ zeroTimeUnix ∧ t > iat := by
  unfold ChangedPasswordAfter
  cases hpc : user.passwordChangedAt with
  | none => simp
  | some t =>
    by_cases hz : t = zeroTimeUnix
    · subst hz
      simp
    · simp [hz]

/-- C2 counterexample: an account whose `passwordChangedAt` pointer is set to
Go's zero time, with a token issued one second before that instant.  The
claim's condition — `passwordChangedAt` set and strictly later than
`issuedAt` — holds, yet the gate authenticates the request because
`ChangedPasswordAfter` treats the zero time as "never changed". -/
def c2User : Teacher := ⟨2, some zeroTimeUnix, true⟩

def c2Claims : CustomClaims :=
  ⟨"2", "teacher", "school-app", "2", some (zeroTimeUnix - 1), some 100, none⟩

def c2Tok : JwtToken := ⟨.HS256, c2Claims, true⟩

def c2Lookup : String → Option Teacher := fun _ => some c2User

/-- C2 counterexample: the token validates, the account is found,
`passwordChangedAt` is set and strictly later (by one second) than the token's
`issuedAt`, yet the request is authenticated rather than rejected. -/
theorem protect_pwchange_cex :
    ValidateJWT 0 c2Tok = .ok c2Claims ∧
    c2Lookup c2Claims.userID = some c2User ∧
    c2User.passwordChangedAt = some zeroTimeUnix ∧
    c2Claims.issuedAt = some (zeroTimeUnix - 1) ∧
    zeroTimeUnix > zeroTimeUnix - 1 ∧
    Protect c2Lookup 0 (some c2Tok) none = .authenticated c2User := by
  refine ⟨rfl, rfl, rfl, rfl, by omega, ?_⟩
  decide

/-- C2 amended: for a validated token carrying `issuedAt` and a found account,
the gate rejects with 401 on password-change grounds exactly when
`passwordChangedAt` is set to a non-zero time that is strictly later (at
Unix-second granularity) than `issuedAt`; a nil or zero-time
`passwordChangedAt`, or one at or before `issuedAt`, is not rejected. -/
theorem protect_pwchange_amended (lookup : String → Option Teacher) (now : Int)
    (tok : JwtToken) (claims : CustomClaims) (iat : Int) (user : Teacher)
    (hval : ValidateJWT now tok = .ok claims)
    (hiat : claims.issuedAt = some iat)
    (hlook : lookup claims.userID = some user) :
    Protect lookup now (some tok) none = .reject 401 pwChangedMsg ↔
      ∃ t, user.passwordChangedAt = some t ∧ t ≠ zeroTimeUnix ∧ t > iat := by
  rw [← changedPasswordAfter_iff user iat]
  simp only [Protect, hval, hiat, hlook]
  by_cases hch : ChangedPasswordAfter user iat = true
  · simp [hch]
  · simp only [Bool.not_eq_true] at hch
    simp [hch]

def w2User : Teacher := ⟨21, some 50, true⟩

def w2Claims : CustomClaims := ⟨"21", "teacher", "school-app", "21", some 10, some 100, none⟩

def w2Tok : JwtToken := ⟨.HS256, w2Claims, true⟩

def w2Lookup : String → Option Teacher := fun _ => some w2User

/-- C2 amended witness: password changed at 50, token issued at 10 — the gate
rejects with the password-change message. -/
theorem protect_pwchange_amended_witness :
    Protect w2Lookup 0 (some w2Tok) none = .reject 401 pwChangedMsg :=
  (protect_pwchange_amended w2Lookup 0 w2Tok w2Claims 10 w2User (by decide) rfl
    rfl).mpr ⟨50, rfl, by decide, by decide⟩

/-! ### C7: the gate never rejects inactive accounts -/

def c7User : Teacher := ⟨3, none, false⟩

def c7Claims : CustomClaims := ⟨"3", "teacher", "school-app", "3", some 10, some 100, none⟩

def c7Tok : JwtToken := ⟨.HS256, c7Claims, true⟩

def c7Lookup : String → Option Teacher := fun _ => some c7User

/-- C7 (code-bug evidence): a request with a valid token, an existing account,
and no disqualifying password change, whose account is **inactive**, is
authenticated by `Protect` — the middleware contains no `IsActive` check and
can never produce a 403. -/
theorem protect_inactive_authenticated :
    c7User.isActive = false ∧
    ValidateJWT 0 c7Tok = .ok c7Claims ∧
    c7Lookup c7Claims.userID = some c7User ∧
    ChangedPasswordAfter c7User 10 = false ∧
    Protect c7Lookup 0 (some c7Tok) none = .authenticated c7User := by decide

/-! ### C9: missing `iat` skips the password-change comparison -/

/-- C9: when the validated claims carry no `issuedAt`, the gate skips the
password-change comparison entirely and authenticates the found account, no
matter what `passwordChangedAt` is. -/
theorem protect_no_iat_skips_pw_check (lookup : String → Option Teacher) (now : Int)
    (tok : JwtToken) (claims : CustomClaims) (user : Teacher)
    (hval : ValidateJWT now tok = .ok claims)
    (hiat : claims.issuedAt = none)
    (hlook : lookup claims.userID = some user) :
    Protect lookup now (some tok) none = .authenticated user := by
  simp only [Protect, hval, hlook, hiat]

def w9User : Teacher := ⟨9, some 999, true⟩

def w9Claims : CustomClaims := ⟨"9", "teacher", "school-app", "9", none, some 100, none⟩

def w9Tok : JwtToken := ⟨.HS256, w9Claims, true⟩

def w9Lookup : String → Option Teacher := fun _ => some w9User

/-- C9 witness: the account's `passwordChangedAt` is set (to 999), the token
has no `iat`, and the gate authenticates. -/
theorem protect_no_iat_skips_pw_check_witness :
    Protect w9Lookup 0 (some w9Tok) none = .authenticated w9User :=
  protect_no_iat_skips_pw_check w9Lookup 0 w9Tok w9Claims w9User (by decide) rfl rfl

/-! ### C3: algorithm pinning in `ValidateJWT` -/

def c3Claims : CustomClaims := ⟨"7", "teacher", "school-app", "7", some 0, some 100, none⟩

def c3Tok : JwtToken := ⟨.HS384, c3Claims, true⟩

/-- C3 counterexample: the issuer's single algorithm is HS256, but the keyfunc
only pins the HMAC *family* — an unexpired token declaring HS384 whose
signature verifies under the process key is accepted, though the claim says
any algorithm other than the single expected one is rejected. -/
theorem validateJWT_hs384_cex :
    c3Tok.method ≠ SigningMethod.HS256 ∧
    ValidateJWT 0 c3Tok = .ok c3Claims := by decide

/-- C3 amended: `ValidateJWT` succeeds (returning the claims) exactly when the
declared method is in the HMAC family (HS256/HS384/HS512 — `none` and all
non-HMAC algorithms are rejected regardless of the header), the signature
verifies, `expiresAt` has not passed, and any `notBefore` is not in the
future; it fails with the invalid-token error otherwise. -/
theorem validateJWT_amended (now : Int) (tok : JwtToken) :
    (ValidateJWT now tok = .ok tok.claims ↔
      (isHMACMethod tok.method = true ∧ tok.signatureValid = true ∧
        (∀ e, tok.claims.expiresAt = some e → now < e) ∧
        (∀ n, tok.claims.notBefore = some n → n ≤ now))) ∧
    (isError (ValidateJWT now tok) = true ↔
      ¬ (isHMACMethod tok.method = true ∧ tok.signatureValid = true ∧
        (∀ e, tok.claims.expiresAt = some e → now < e) ∧
        (∀ n, tok.claims.notBefore = some n → n ≤ now))) := by
  cases hm : isHMACMethod tok.method <;>
    cases hs : tok.signatureValid <;>
    cases he : tok.claims.expiresAt <;>
    cases hn : tok.claims.notBefore <;>
    simp only [ValidateJWT, isError, hm, hs, he, hn] <;>
    simp <;>
    try omega
  all_goals (split_ifs <;> simp_all)

/-! ### C5: decode∘encode round-trip -/

/-- The encoder lifted to records: `encodePHCString` takes only the salt and
hash bytes, so this is the only way the source can encode a record — the
record's own `memory`, `iterations`, `parallelism`, and `version` fields are
ignored and the current defaults are written instead. -/
def encodeRecord (r : Argon2Hash) : List Char := encodePHCString r.salt r.hash

/-- A well-formed record (16-byte salt, 32-byte hash) whose memory cost is an
older, lower value than the current default. -/
def c5Rec : Argon2Hash :=
  ⟨algorithmName, 19, 1024, 3, 2, List.replicate 16 7, List.replicate 32 9⟩

/-- C5 counterexample: encoding a well-formed record with `memory = 1024` and
decoding the result yields a record with `memory = 65536` — the encoder cannot
represent non-default parameters, so `decode(encode(r)) = r` fails. -/
theorem decode_encode_record_cex :
    parsePHCString (encodeRecord c5Rec) =
      .ok ⟨algorithmName, 19, 65536, 3, 2, List.replicate 16 7, List.replicate 32 9⟩ ∧
    parsePHCString (encodeRecord c5Rec) ≠ .ok c5Rec := by
  constructor
  · exact parsePHCString_encodePHCString _ _ (by decide) (by decide)
  · unfold encodeRecord
    rw [parsePHCString_encodePHCString _ _ (by decide) (by decide)]
    decide

/-- C5 amended: `decode(encode(r)) = r` holds for every well-formed record
whose parameter fields equal the engine's current defaults (the only
parameters `encode` can write); the salt and hash bytes always round-trip
unchanged. -/
theorem decode_encode_roundtrip_amended (r : Argon2Hash)
    (halg : r.algorithm = algorithmName) (hver : r.version = argon2Version)
    (hm : r.memory = defaultMemory) (ht : r.iterations = defaultIterations)
    (hp : r.parallelism = defaultParallelism)
    (hs : ∀ x ∈ r.salt, x < 256) (hh : ∀ x ∈ r.hash, x < 256) :
    parsePHCString (encodeRecord r) = .ok r := by
  obtain ⟨alg, ver, m, t, p, salt, hash⟩ := r
  simp only at halg hver hm ht hp hs hh
  subst halg hver hm ht hp
  exact parsePHCString_encodePHCString salt hash hs hh

/-- C5 amended witness: a concrete default-parameter record round-trips. -/
theorem decode_encode_roundtrip_amended_witness :
    parsePHCString
        (encodeRecord ⟨algorithmName, 19, 65536, 3, 2, [0, 1], [2, 3]⟩) =
      .ok ⟨algorithmName, 19, 65536, 3, 2, [0, 1], [2, 3]⟩ :=
  decode_encode_roundtrip_amended _ rfl rfl (by decide) rfl (by decide) (by decide)
    (by decide)

/-! ### C8: decoded salt/hash lengths are not validated -/

/-- C8 counterexample: a PHC string whose salt and hash segments decode to a
single byte each is accepted by `parsePHCString`, although the configured
lengths are 16 and 32 — decode performs no length check. -/
theorem parse_wrong_length_accepted_cex :
    parsePHCString "$argon2id$v=19$m=65536,t=3,p=2$QQ$QQ".toList =
      .ok ⟨algorithmName, 19, 65536, 3, 2, [65], [65]⟩ ∧
    ([65] : List Nat).length ≠ defaultSaltLength ∧
    ([65] : List Nat).length ≠ defaultKeyLength := by decide

/-- C8 amended: decode enforces no length on the salt or hash segments — any
valid base64 is accepted and the decoded record carries whatever lengths the
segments decode to (`CheckPassword` later derives with the stored hash's
length rather than the configured one). -/
theorem parse_no_length_enforcement (salt hash : List Nat)
    (hs : ∀ x ∈ salt, x < 256) (hh : ∀ x ∈ hash, x < 256) :
    isError (parsePHCString (encodePHCString salt hash)) = false ∧
    ∀ rec, parsePHCString (encodePHCString salt hash) = .ok rec →
      rec.salt.length = salt.length ∧ rec.hash.length = hash.length := by
  have h := parsePHCString_encodePHCString salt hash hs hh
  constructor
  · rw [h]
    rfl
  · intro rec hrec
    rw [h] at hrec
    cases Except.ok.inj hrec
    exact ⟨rfl, rfl⟩

/-- C8 amended witness: a 1-byte salt and 2-byte hash are accepted. -/
theorem parse_no_length_enforcement_witness :
    isError (parsePHCString (encodePHCString [1] [2, 3])) = false :=
  (parse_no_length_enforcement [1] [2, 3] (by decide) (by decide)).1

/-! ### C4: `UpgradeHashIfNeeded` -/

theorem needsUpgrade_iff (rec : Argon2Hash) :
    needsUpgrade rec = true ↔
      rec.memory < defaultMemory ∨ rec.iterations < defaultIterations ∨
        rec.parallelism < defaultParallelism := by
  unfold needsUpgrade
  split_ifs <;> simp_all

/-- C4: the upgrade operation (1) returns an error — producing no hash —
whenever verification does not succeed with `true`; (2) on successful
verification returns a fresh hash derived with the current default parameters
and `wasUpgraded = true` exactly when a stored cost parameter is below the
current default, and the original string with `wasUpgraded = false` otherwise;
(3) called on a hash freshly produced by `HashPassword` (hence on its own
upgraded output) it returns `wasUpgraded = false`. -/
theorem upgradeHashIfNeeded_spec (idKey : Kdf)
    (hlen : ∀ pw s t m p k, (idKey pw s t m p k).length = k)
    (hbyte : ∀ pw s t m p k, ∀ x ∈ idKey pw s t m p k, x < 256)
    (salt salt2 : List Nat) (hsalt : ∀ x ∈ salt, x < 256)
    (password : List Nat) (hpw : 4 ≤ password.length) (enc : List Char) :
    (CheckPassword idKey password enc ≠ .ok true →
      isError (UpgradeHashIfNeeded idKey salt password enc) = true) ∧
    (∀ rec, CheckPassword idKey password enc = .ok true →
      parsePHCString enc = .ok rec →
      UpgradeHashIfNeeded idKey salt password enc =
        .ok (if needsUpgrade rec
          then (encodePHCString salt
            (idKey password salt defaultIterations defaultMemory defaultParallelism
              defaultKeyLength), true)
          else (enc, false)) ∧
      (needsUpgrade rec = true ↔
        rec.memory < defaultMemory ∨ rec.iterations < defaultIterations ∨
          rec.parallelism < defaultParallelism)) ∧
    (∀ newEnc, HashPassword idKey salt password = .ok newEnc →
      UpgradeHashIfNeeded idKey salt2 password newEnc = .ok (newEnc, false)) := by
  have hval : validatePasswordInput password = .ok () := validatePasswordInput_ok _ hpw
  refine ⟨?_, ?_, ?_⟩
  · intro hne
    cases hc : CheckPassword idKey password enc with
    | error e => simp [UpgradeHashIfNeeded, hc, isError]
    | ok b =>
      cases b with
      | false => simp [UpgradeHashIfNeeded, hc, isError]
      | true => exact absurd hc hne
  · intro rec h1 h2
    have hhp : HashPassword idKey salt password =
        .ok (encodePHCString salt
          (idKey password salt defaultIterations defaultMemory defaultParallelism
            defaultKeyLength)) := by
      simp only [HashPassword, hval]
    refine ⟨?_, needsUpgrade_iff rec⟩
    by_cases hup : needsUpgrade rec = true
    · simp [UpgradeHashIfNeeded, h1, h2, hup, hhp]
    · simp only [Bool.not_eq_true] at hup
      simp [UpgradeHashIfNeeded, h1, h2, hup]
  · intro newEnc hnew
    have hnew' : newEnc = encodePHCString salt
        (idKey password salt defaultIterations defaultMemory defaultParallelism
          defaultKeyLength) := by
      simp only [HashPassword, hval] at hnew
      exact (Except.ok.inj hnew).symm
    subst hnew'
    have hcheck := checkPassword_encode idKey hlen hbyte salt hsalt password password hval
    simp only [decide_eq_true_eq, eq_self_iff_true, decide_True] at hcheck
    have hparse := parsePHCString_encodePHCString salt
      (idKey password salt defaultIterations defaultMemory defaultParallelism
        defaultKeyLength) hsalt (hbyte _ _ _ _ _ _)
    simp [UpgradeHashIfNeeded, hcheck, hparse, needsUpgrade]

/-- C4 witness: a second upgrade call on a freshly produced hash reports
`wasUpgraded = false` and returns the hash unchanged. -/
theorem upgradeHashIfNeeded_spec_witness :
    UpgradeHashIfNeeded toyKdf wSalt wPassword
        (encodePHCString wSalt
          (toyKdf wPassword wSalt defaultIterations defaultMemory defaultParallelism
            defaultKeyLength)) =
      .ok (encodePHCString wSalt
        (toyKdf wPassword wSalt defaultIterations defaultMemory defaultParallelism
          defaultKeyLength), false) :=
  (upgradeHashIfNeeded_spec toyKdf toyKdf_len toyKdf_byte wSalt wSalt (by decide)
    wPassword (by decide) []).2.2 _ rfl

/-! ### C6: every malformed input is a hard decode failure -/

/-- Spec condition on one `k=v` parameter pair: bad when it does not split on
`=` into exactly two pieces or its value is not a uint32 numeral. -/
def segBadPair (pair : List Char) : Bool :=
  match splitOnChar '=' pair with
  | [_, v] => (parseUint32 v).isNone
  | _ => true

/-- Spec condition: required parameter key `k` is missing when no pair of the
parameter segment is a well-formed binding of `k`. -/
def keyMissing (k : List Char) (pairs : List (List Char)) : Bool :=
  pairs.all fun pair =>
    match splitOnChar '=' pair with
    | [k2, _] => k2 != k
    | _ => true

/-- The disjunction of failure conditions C6 enumerates: wrong segment count,
wrong algorithm identifier, unsupported or unparsable version, a malformed or
non-numeric parameter, a missing required key (`m`, `t`, `p`), or invalid
base64 in the salt or hash segment. -/
def phcBad (s : List Char) : Bool :=
  match splitOnChar '$' s with
  | [_, algSeg, verSeg, parSeg, saltSeg, hashSeg] =>
    (algSeg != algorithmName) ||
    (parseUint32 (trimPre "v=".toList verSeg) != some argon2Version) ||
    ((splitOnChar ',' parSeg).any segBadPair) ||
    keyMissing "m".toList (splitOnChar ',' parSeg) ||
    keyMissing "t".toList (splitOnChar ',' parSeg) ||
    keyMissing "p".toList (splitOnChar ',' parSeg) ||
    (decodeB64 saltSeg).isNone || (decodeB64 hashSeg).isNone
  | _ => true

theorem parsePair_ok_split (pair : List Char) (kv : List Char × Nat)
    (h : parsePair pair = .ok kv) :
    ∃ v, splitOnChar '=' pair = [kv.1, v] ∧ parseUint32 v = some kv.2 := by
  obtain ⟨k0, n0⟩ := kv
  unfold parsePair at h
  rcases hsp : splitOnChar '=' pair with _ | ⟨k, _ | ⟨v, _ | ⟨w, rest⟩⟩⟩ <;>
      rw [hsp] at h <;> try simp at h
  cases hu : parseUint32 v with
  | none => rw [hu] at h; simp at h
  | some n =>
    rw [hu] at h
    simp only [Except.ok.injEq, Prod.mk.injEq] at h
    obtain ⟨rfl, rfl⟩ := h
    exact ⟨v, rfl, hu⟩

theorem parsePair_error_of_bad (pair : List Char) (h : segBadPair pair = true) :
    isError (parsePair pair) = true := by
  unfold segBadPair at h
  unfold parsePair
  rcases hsp : splitOnChar '=' pair with _ | ⟨k, _ | ⟨v, _ | ⟨w, rest⟩⟩⟩ <;>
      rw [hsp] at h <;> try rfl
  simp only [Option.isNone_iff_eq_none] at h
  simp [h, isError]

theorem collectParams_error_of_bad (pairs : List (List Char))
    (h : ∃ pair ∈ pairs, segBadPair pair = true) :
    isError (collectParams pairs) = true := by
  induction pairs with
  | nil => simp at h
  | cons p rest ih =>
    obtain ⟨q, hq, hbad⟩ := h
    cases hpp : parsePair p with
    | error e => simp [collectParams, hpp, isError]
    | ok kv =>
      rcases List.mem_cons.mp hq with rfl | hq'
      · have hbad' := parsePair_error_of_bad q hbad
        rw [hpp] at hbad'
        simp [isError] at hbad'
      · cases hcr : collectParams rest with
        | error e => simp [collectParams, hpp, hcr, isError]
        | ok l =>
          have h2 := ih ⟨q, hq', hbad⟩
          rw [hcr] at h2
          simp [isError] at h2

theorem collectParams_mem (pairs : List (List Char)) (l : List (List Char × Nat))
    (hc : collectParams pairs = .ok l) :
    ∀ kv ∈ l, ∃ pair ∈ pairs, parsePair pair = .ok kv := by
  induction pairs generalizing l with
  | nil =>
    simp only [collectParams, Except.ok.injEq] at hc
    subst hc
    simp
  | cons p rest ih =>
    cases hpp : parsePair p with
    | error e => simp [collectParams, hpp] at hc
    | ok kv0 =>
      cases hcr : collectParams rest with
      | error e => simp [collectParams, hpp, hcr] at hc
      | ok l0 =>
        simp only [collectParams, hpp, hcr, Except.ok.injEq] at hc
        subst hc
        intro kv hkv
        rcases List.mem_cons.mp hkv with rfl | hkv'
        · exact ⟨p, by simp, hpp⟩
        · obtain ⟨pair, hp1, hp2⟩ := ih l0 hcr kv hkv'
          exact ⟨pair, by simp [hp1], hp2⟩

theorem lookup_none_of_no_key (k : List Char) (l : List (List Char × Nat))
    (h : ∀ kv ∈ l, kv.1 ≠ k) : List.lookup k l = none := by
  induction l with
  | nil => rfl
  | cons kv rest ih =>
    obtain ⟨k2, v⟩ := kv
    have hne : k2 ≠ k := h (k2, v) (by simp)
    have hb : (k == k2) = false := by
      rw [beq_eq_false_iff_ne]
      exact fun hkk => hne hkk.symm
    simp only [List.lookup, hb]
    exact ih (fun kv2 hkv2 => h kv2 (by simp [hkv2]))

theorem mapGet_none_of_missing (pairs : List (List Char)) (l : List (List Char × Nat))
    (k : List Char) (hc : collectParams pairs = .ok l)
    (hm : keyMissing k pairs = true) : mapGet l k = none := by
  unfold mapGet
  apply lookup_none_of_no_key
  intro kv hkv
  have hkv' : kv ∈ l := List.mem_reverse.mp hkv
  obtain ⟨pair, hp1, hp2⟩ := collectParams_mem pairs l hc kv hkv'
  obtain ⟨v, hsp, _⟩ := parsePair_ok_split pair kv hp2
  have hall := (List.all_eq_true.mp hm) pair hp1
  rw [hsp] at hall
  simpa using hall

theorem parseAlgorithm_ok (seg : List Char) (a : List Char)
    (h : parseAlgorithm seg = .ok a) : seg = algorithmName := by
  unfold parseAlgorithm at h
  by_cases hs : seg = algorithmName
  · exact hs
  · rw [if_neg hs] at h
    simp at h

theorem parseVersion_ok (seg : List Char) (v : Nat) (h : parseVersion seg = .ok v) :
    parseUint32 (trimPre "v=".toList seg) = some argon2Version := by
  unfold parseVersion at h
  cases hu : parseUint32 (trimPre "v=".toList seg) with
  | none => rw [hu] at h; simp at h
  | some w =>
    rw [hu] at h
    by_cases hw : w = argon2Version
    · rw [hw]
    · simp only [if_neg hw] at h
      simp at h

theorem parseParameters_ok_parts (seg : List Char) (trip : Nat × Nat × Nat)
    (h : parseParameters seg = .ok trip) :
    ∃ l, collectParams (splitOnChar ',' seg) = .ok l ∧
      (mapGet l "m".toList).isSome = true ∧ (mapGet l "t".toList).isSome = true ∧
      (mapGet l "p".toList).isSome = true := by
  unfold parseParameters at h
  cases hc : collectParams (splitOnChar ',' seg) with
  | error e => rw [hc] at h; simp at h
  | ok l =>
    rw [hc] at h
    dsimp only at h
    refine ⟨l, rfl, ?_, ?_, ?_⟩ <;>
      cases hm : mapGet l "m".toList <;> cases ht : mapGet l "t".toList <;>
        cases hp : mapGet l "p".toList <;> rw [hm, ht, hp] at h <;> simp at h ⊢

theorem decodeSaltAndHash_ok (a b : List Char) (pr : List Nat × List Nat)
    (h : decodeSaltAndHash a b = .ok pr) :
    (decodeB64 a).isSome = true ∧ (decodeB64 b).isSome = true := by
  unfold decodeSaltAndHash at h
  cases ha : decodeB64 a with
  | none => rw [ha] at h; simp at h
  | some x =>
    cases hb : decodeB64 b with
    | none => rw [ha, hb] at h; simp at h
    | some y => simp [ha, hb]

/-- C6: `parsePHCString` fails — returning an error and no record — on every
input satisfying any of the enumerated malformation conditions.  (In the
`Except` embedding a failure can never carry a partially-populated record or
substituted defaults.) -/
theorem parse_fails_on_bad (s : List Char) (hbad : phcBad s = true) :
    isError (parsePHCString s) = true := by
  cases hres : parsePHCString s with
  | error e => rfl
  | ok rec =>
    exfalso
    unfold parsePHCString at hres
    unfold phcBad at hbad
    rcases hsplit : splitOnChar '$' s with
        _ | ⟨p0, _ | ⟨p1, _ | ⟨p2, _ | ⟨p3, _ | ⟨p4, _ | ⟨p5, _ | ⟨p6, rest⟩⟩⟩⟩⟩⟩⟩ <;>
      rw [hsplit] at hres hbad <;> try simp at hres
    cases halg : parseAlgorithm p1 with
    | error e => rw [halg] at hres; simp at hres
    | ok alg =>
    cases hver : parseVersion p2 with
    | error e => rw [halg, hver] at hres; simp at hres
    | ok ver =>
    cases hpar : parseParameters p3 with
    | error e => rw [halg, hver, hpar] at hres; simp at hres
    | ok trip =>
    obtain ⟨m, t, p⟩ := trip
    cases hdec : decodeSaltAndHash p4 p5 with
    | error e => rw [halg, hver, hpar, hdec] at hres; simp at hres
    | ok pr =>
    obtain ⟨l, hc, hgm, hgt, hgp⟩ := parseParameters_ok_parts p3 (m, t, p) hpar
    obtain ⟨hsa, hhb⟩ := decodeSaltAndHash_ok p4 p5 pr hdec
    simp only [Bool.or_eq_true, bne_iff_ne, ne_eq, List.any_eq_true,
      Option.isNone_iff_eq_none, or_assoc] at hbad
    rcases hbad with h | h | h | h | h | h | h | h
    · exact h (parseAlgorithm_ok p1 alg halg)
    · exact h (parseVersion_ok p2 ver hver)
    · have := collectParams_error_of_bad (splitOnChar ',' p3) h
      rw [hc] at this
      simp [isError] at this
    · rw [mapGet_none_of_missing _ l _ hc h] at hgm
      simp at hgm
    · rw [mapGet_none_of_missing _ l _ hc h] at hgt
      simp at hgt
    · rw [mapGet_none_of_missing _ l _ hc h] at hgp
      simp at hgp
    · rw [h] at hsa
      simp at hsa
    · rw [h] at hhb
      simp at hhb

/-- C6 witness: an input with the wrong segment count satisfies the bad-input
predicate and is rejected by decode. -/
theorem parse_fails_on_bad_witness :
    phcBad "not-a-phc-string".toList = true ∧
      isError (parsePHCString "not-a-phc-string".toList) = true :=
  ⟨by decide, parse_fails_on_bad _ (by decide)⟩

end SchoolApi
